import Mathlib

/-!
# Verification of the Crop-Analysis-Visualization core

Shallow embedding of the algorithmic core of the repository:

* `src/shared/config.py` — the LNC reference thresholds, the monthly scale
  factors, `get_threshold_for_date` and `get_monthly_thresholds`;
* `src/visualization_6_nst_ratio_analysis/generate_nst_ratio_analysis.py` —
  `get_monthly_averages`, `normalize`, and the strict-neighbor peak scan used
  by `create_triple_axis_chart`, `create_peak_annotated_chart` and
  `create_ratio_focused_chart`.

Real (float) arithmetic of the source is modelled by `ℚ`; the decimal
constants of `config.py` are exact decimal fractions, so every quantity in
the claims is an exact rational.  A pandas `NaN` (a missing measurement, or
the mean of an empty group) is modelled by `Option ℚ` with `none` for `NaN`;
the non-finite result of a float division by zero (`±inf`/`NaN`) is likewise
modelled as `none` in the ratio column.
-/

namespace CropAnalysis

/-- The four LNC boundary values (a row of `LNC_OCT_THRESHOLDS`-shaped data):
deficient/low, low/optimum, optimum/high, high/excess. -/
structure Thresholds where
  deficient_low : ℚ
  low_optimum : ℚ
  optimum_high : ℚ
  high_excess : ℚ
  deriving DecidableEq, Repr

/-- `LNC_OCT_THRESHOLDS` from `src/shared/config.py` (lines 69-74). -/
def LNC_OCT_THRESHOLDS : Thresholds :=
  { deficient_low := 2.64
    low_optimum := 2.88
    optimum_high := 3.24
    high_excess := 3.48 }

/-- `LNC_MONTHLY_FACTORS` from `src/shared/config.py` (lines 77-80).
In Python the table is a dict keyed by the months 1..12; looking up any other
key raises `KeyError`, and no caller does, so the value outside 1..12 is junk
(0). -/
def LNC_MONTHLY_FACTORS (month : ℕ) : ℚ :=
  match month with
  | 1 => 1.125 | 2 => 1.081 | 3 => 1.024 | 4 => 0.993
  | 5 => 0.910 | 6 => 0.923 | 7 => 0.973 | 8 => 1.024
  | 9 => 1.024 | 10 => 1.000 | 11 => 1.088 | 12 => 1.125
  | _ => 0

/-- The `threshold_key` strings accepted by `get_threshold_for_date`. -/
inductive ThresholdKey where
  | deficient_low
  | low_optimum
  | optimum_high
  | high_excess
  deriving DecidableEq, Repr

/-- Dictionary lookup `LNC_OCT_THRESHOLDS[threshold_key]`. -/
def Thresholds.get (t : Thresholds) : ThresholdKey → ℚ
  | .deficient_low => t.deficient_low
  | .low_optimum => t.low_optimum
  | .optimum_high => t.optimum_high
  | .high_excess => t.high_excess

/-- `get_threshold_for_date` from `src/shared/config.py` (lines 228-232).
Only the month component of the date is used (`month = date.month`), so the
embedding takes the month directly. -/
def get_threshold_for_date (month : ℕ) (threshold_key : ThresholdKey) : ℚ :=
  LNC_OCT_THRESHOLDS.get threshold_key * LNC_MONTHLY_FACTORS month

/-- `get_monthly_thresholds` from `src/shared/config.py` (lines 235-246),
viewed as the per-month entry of the dict it builds for `month` in 1..12. -/
def get_monthly_thresholds (month : ℕ) : Thresholds :=
  { deficient_low := LNC_OCT_THRESHOLDS.deficient_low * LNC_MONTHLY_FACTORS month
    low_optimum := LNC_OCT_THRESHOLDS.low_optimum * LNC_MONTHLY_FACTORS month
    optimum_high := LNC_OCT_THRESHOLDS.optimum_high * LNC_MONTHLY_FACTORS month
    high_excess := LNC_OCT_THRESHOLDS.high_excess * LNC_MONTHLY_FACTORS month }

/-- The five ordinal nutrient-status labels. -/
inductive StatusLabel where
  | Deficient
  | Low
  | Optimum
  | High
  | Excess
  deriving DecidableEq, Repr

/-- Modelled from the spec: the BandClassifier of §4.2 is not a function in
`src/` (the classification reports draw the five threshold bands behind the
data instead of labelling each sample), so the value→label map is taken from
the spec's words: value strictly below b1 → Deficient; in [b1, b2) → Low; in
[b2, b3) → Optimum; in [b3, b4) → High; ≥ b4 → Excess (left-closed bands). -/
def classify (value : ℚ) (t : Thresholds) : StatusLabel :=
  if value < t.deficient_low then .Deficient
  else if value < t.low_optimum then .Low
  else if value < t.optimum_high then .Optimum
  else if value < t.high_excess then .High
  else .Excess

/-- `series.min()` of a pandas series, over the embedded list of (finite)
values.  The value on the empty list is junk (pandas returns `NaN` there); in
`normalize` below both branches return the empty series for empty input, so
the junk value is immaterial. -/
def listMin : List ℚ → ℚ
  | [] => 0
  | x :: xs => xs.foldl min x

/-- `series.max()` of a pandas series; junk 0 on the empty list (see
`listMin`). -/
def listMax : List ℚ → ℚ
  | [] => 0
  | x :: xs => xs.foldl max x

/-- `normalize` from
`src/visualization_6_nst_ratio_analysis/generate_nst_ratio_analysis.py`
(lines 68-72):

    if series.max() == series.min():
        return series * 0 + 50
    return (series - series.min()) / (series.max() - series.min()) * 100

Both branches are elementwise over the series.  On the empty series the
Python code takes the second branch (`NaN == NaN` is false) and returns the
empty series, as does either branch here. -/
def normalize (xs : List ℚ) : List ℚ :=
  if listMax xs = listMin xs then
    xs.map (fun v => v * 0 + 50)
  else
    xs.map (fun v => (v - listMin xs) / (listMax xs - listMin xs) * 100)

/-- The peak test applied at index `i` by the scan

    for i in range(1, len(values) - 1):
        if values[i] > values[i-1] and values[i] > values[i+1]:

shared by `create_triple_axis_chart` (lines 342-346),
`create_peak_annotated_chart` (lines 471-477) and
`create_ratio_focused_chart` (lines 544-553) of
`generate_nst_ratio_analysis.py`.  The loop bounds `range(1, n-1)` become
the conjuncts `1 ≤ i` and `i + 1 < n`; inside those bounds every index used
is valid, so `getD _ 0` always hits a real element. -/
def isInteriorPeak (xs : List ℚ) (i : ℕ) : Bool :=
  decide (1 ≤ i ∧ i + 1 < xs.length ∧
    xs.getD (i - 1) 0 < xs.getD i 0 ∧ xs.getD (i + 1) 0 < xs.getD i 0)

/-- The list of indices the peak scan reports, in scan order. -/
def findPeaks (xs : List ℚ) : List ℕ :=
  (List.range xs.length).filter (isInteriorPeak xs)

/-- One row of the NPK dataframe as `get_monthly_averages` sees it: the
normalized date (`parsed_date.replace(day=15)`, abstracted to a totally
ordered key since only its ordering and equality matter), and the `N_Value`
and `ST_Value` measurements, `none` for a `NaN` cell. -/
structure Sample where
  normalized_date : ℕ
  n_value : Option ℚ
  st_value : Option ℚ
  deriving DecidableEq, Repr

/-- Pandas `mean` over a group's column: the mean of the non-`NaN` values,
`NaN` (`none`) when the group has no non-`NaN` value. -/
def meanOpt (vs : List ℚ) : Option ℚ :=
  if vs.length = 0 then none else some (vs.sum / vs.length)

/-- The float division `N_Value / ST_Value` of the two group means.  `some q`
is the finite float value; `none` stands for the non-finite IEEE results: a
`NaN` operand propagates, and a zero divisor yields `±inf` (or `NaN` for
`0/0`).  The row is produced either way — the division never removes a row. -/
def ratioDiv (n st : Option ℚ) : Option ℚ :=
  match n with
  | none => none
  | some a =>
    match st with
    | none => none
    | some b => if b = 0 then none else some (a / b)

/-- One row of the dataframe returned by `get_monthly_averages`. -/
structure Bucket where
  normalized_date : ℕ
  n_value : Option ℚ
  st_value : Option ℚ
  n_st_ratio : Option ℚ
  deriving DecidableEq, Repr

/-- `get_monthly_averages` from `generate_nst_ratio_analysis.py`
(lines 53-65):

    monthly_avg = df_copy.groupby('normalized_date').agg({
        'N_Value': 'mean', 'ST_Value': 'mean'}).reset_index()
    monthly_avg = monthly_avg.sort_values('normalized_date')
    monthly_avg['N_ST_Ratio'] = monthly_avg['N_Value'] / monthly_avg['ST_Value']

One output row per distinct `normalized_date`, rows sorted ascending by that
key (pandas `groupby` already sorts keys; `sort_values` re-sorts), and the
ratio column computed for every row with no filtering. -/
def get_monthly_averages (samples : List Sample) : List Bucket :=
  let keys := (samples.map Sample.normalized_date).dedup
  let sortedKeys := List.insertionSort (· ≤ ·) keys
  sortedKeys.map fun k =>
    let grp := samples.filter (fun s => s.normalized_date = k)
    let nmean := meanOpt (grp.filterMap Sample.n_value)
    let stmean := meanOpt (grp.filterMap Sample.st_value)
    { normalized_date := k
      n_value := nmean
      st_value := stmean
      n_st_ratio := ratioDiv nmean stmean }

/-- The RatioEngine example input of the spec: one January sample with
N = 2.0 and ST = 0, one February sample with N = 2.0 and ST = 50.0 (January
keyed 1, February keyed 2). -/
def ratioExampleSamples : List Sample :=
  [{ normalized_date := 1, n_value := some 2, st_value := some 0 },
   { normalized_date := 2, n_value := some 2, st_value := some 50 }]

/-- The ExtremumDetector example series [1, 3, 5, 7, 4, 2] of the spec. -/
def peakExampleSeries : List ℚ := [1, 3, 5, 7, 4, 2]

/-! ## Helper lemmas on `listMin` / `listMax` -/

theorem foldl_min_le_init : ∀ (xs : List ℚ) (a : ℚ), xs.foldl min a ≤ a
  | [], a => le_refl a
  | x :: xs, a => le_trans (foldl_min_le_init xs (min a x)) (min_le_left a x)

theorem foldl_min_le_mem : ∀ (xs : List ℚ) (a x : ℚ), x ∈ xs → xs.foldl min a ≤ x
  | y :: ys, a, x, h => by
    rcases List.mem_cons.mp h with rfl | h2
    · exact le_trans (foldl_min_le_init ys (min a x)) (min_le_right a x)
    · exact foldl_min_le_mem ys (min a y) x h2

theorem listMin_le_of_mem {x : ℚ} {xs : List ℚ} (h : x ∈ xs) : listMin xs ≤ x := by
  cases xs with
  | nil => cases h
  | cons y ys =>
    rcases List.mem_cons.mp h with rfl | h2
    · exact foldl_min_le_init ys x
    · exact foldl_min_le_mem ys y x h2

theorem le_foldl_max_init : ∀ (xs : List ℚ) (a : ℚ), a ≤ xs.foldl max a
  | [], a => le_refl a
  | x :: xs, a => le_trans (le_max_left a x) (le_foldl_max_init xs (max a x))

theorem le_foldl_max_mem : ∀ (xs : List ℚ) (a x : ℚ), x ∈ xs → x ≤ xs.foldl max a
  | y :: ys, a, x, h => by
    rcases List.mem_cons.mp h with rfl | h2
    · exact le_trans (le_max_right a x) (le_foldl_max_init ys (max a x))
    · exact le_foldl_max_mem ys (max a y) x h2

theorem le_listMax_of_mem {x : ℚ} {xs : List ℚ} (h : x ∈ xs) : x ≤ listMax xs := by
  cases xs with
  | nil => cases h
  | cons y ys =>
    rcases List.mem_cons.mp h with rfl | h2
    · exact le_foldl_max_init ys x
    · exact le_foldl_max_mem ys y x h2

theorem foldl_min_mem : ∀ (xs : List ℚ) (a : ℚ), xs.foldl min a ∈ a :: xs
  | [], a => List.mem_cons_self a []
  | x :: xs, a => by
    have h := foldl_min_mem xs (min a x)
    rcases List.mem_cons.mp h with h1 | h2
    · show xs.foldl min (min a x) ∈ a :: x :: xs
      rw [h1]
      rcases min_choice a x with h3 | h3 <;> rw [h3]
      · exact List.mem_cons_self a (x :: xs)
      · exact List.mem_cons_of_mem a (List.mem_cons_self x xs)
    · exact List.mem_cons_of_mem a (List.mem_cons_of_mem x h2)

theorem foldl_max_mem : ∀ (xs : List ℚ) (a : ℚ), xs.foldl max a ∈ a :: xs
  | [], a => List.mem_cons_self a []
  | x :: xs, a => by
    have h := foldl_max_mem xs (max a x)
    rcases List.mem_cons.mp h with h1 | h2
    · show xs.foldl max (max a x) ∈ a :: x :: xs
      rw [h1]
      rcases max_choice a x with h3 | h3 <;> rw [h3]
      · exact List.mem_cons_self a (x :: xs)
      · exact List.mem_cons_of_mem a (List.mem_cons_self x xs)
    · exact List.mem_cons_of_mem a (List.mem_cons_of_mem x h2)

theorem listMin_mem : ∀ {xs : List ℚ}, xs ≠ [] → listMin xs ∈ xs
  | [], h => absurd rfl h
  | _ :: _, _ => foldl_min_mem _ _

theorem listMax_mem : ∀ {xs : List ℚ}, xs ≠ [] → listMax xs ∈ xs
  | [], h => absurd rfl h
  | _ :: _, _ => foldl_max_mem _ _

theorem listMin_le_listMax : ∀ (xs : List ℚ), listMin xs ≤ listMax xs
  | [] => le_refl 0
  | x :: xs =>
    le_trans (listMin_le_of_mem (List.mem_cons_self x xs))
      (le_listMax_of_mem (List.mem_cons_self x xs))

theorem listMax_eq_listMin_of_const {c : ℚ} :
    ∀ {xs : List ℚ}, (∀ v ∈ xs, v = c) → listMax xs = listMin xs := by
  intro xs h
  cases xs with
  | nil => rfl
  | cons x ys =>
    rw [h _ (listMax_mem (List.cons_ne_nil x ys)),
      h _ (listMin_mem (List.cons_ne_nil x ys))]

theorem eq_listMin_of_max_eq_min {xs : List ℚ} (h : listMax xs = listMin xs) :
    ∀ v ∈ xs, v = listMin xs := fun _ hv =>
  le_antisymm (h ▸ le_listMax_of_mem hv) (listMin_le_of_mem hv)

theorem foldl_min_map (f : ℚ → ℚ) (hf : ∀ x y, f (min x y) = min (f x) (f y)) :
    ∀ (xs : List ℚ) (a : ℚ), (xs.map f).foldl min (f a) = f (xs.foldl min a)
  | [], _ => rfl
  | x :: xs, a => by
    simp only [List.map_cons, List.foldl_cons, ← hf a x]
    exact foldl_min_map f hf xs (min a x)

theorem foldl_max_map (f : ℚ → ℚ) (hf : ∀ x y, f (max x y) = max (f x) (f y)) :
    ∀ (xs : List ℚ) (a : ℚ), (xs.map f).foldl max (f a) = f (xs.foldl max a)
  | [], _ => rfl
  | x :: xs, a => by
    simp only [List.map_cons, List.foldl_cons, ← hf a x]
    exact foldl_max_map f hf xs (max a x)

theorem listMin_map (f : ℚ → ℚ) (hf : ∀ x y, f (min x y) = min (f x) (f y))
    (x : ℚ) (xs : List ℚ) : listMin ((x :: xs).map f) = f (listMin (x :: xs)) := by
  simp only [List.map_cons, listMin]
  exact foldl_min_map f hf xs x

theorem listMax_map (f : ℚ → ℚ) (hf : ∀ x y, f (max x y) = max (f x) (f y))
    (x : ℚ) (xs : List ℚ) : listMax ((x :: xs).map f) = f (listMax (x :: xs)) := by
  simp only [List.map_cons, listMax]
  exact foldl_max_map f hf xs x

theorem map_min_of_monotone {f : ℚ → ℚ} (hf : ∀ a b, a ≤ b → f a ≤ f b) (x y : ℚ) :
    f (min x y) = min (f x) (f y) := by
  rcases le_total x y with h | h
  · rw [min_eq_left h, min_eq_left (hf _ _ h)]
  · rw [min_eq_right h, min_eq_right (hf _ _ h)]

theorem map_max_of_monotone {f : ℚ → ℚ} (hf : ∀ a b, a ≤ b → f a ≤ f b) (x y : ℚ) :
    f (max x y) = max (f x) (f y) := by
  rcases le_total x y with h | h
  · rw [max_eq_right h, max_eq_right (hf _ _ h)]
  · rw [max_eq_left h, max_eq_left (hf _ _ h)]

/-! ## Helper lemmas on the affine rescaling map and `normalize` -/

theorem affine_mono {mn d : ℚ} (hd : 0 < d) {a b : ℚ} (h : a ≤ b) :
    (a - mn) / d * 100 ≤ (b - mn) / d * 100 :=
  mul_le_mul_of_nonneg_right
    ((div_le_div_iff_of_pos_right hd).mpr (sub_le_sub_right h mn)) (by norm_num)

theorem affine_lt_iff {mn d : ℚ} (hd : 0 < d) (a b : ℚ) :
    (a - mn) / d * 100 < (b - mn) / d * 100 ↔ a < b := by
  rw [mul_lt_mul_right (by norm_num : (0:ℚ) < 100), div_lt_div_iff_of_pos_right hd,
    sub_lt_sub_iff_right]

theorem affine_bounds {mn mx v : ℚ} (h : mn < mx) (h1 : mn ≤ v) (h2 : v ≤ mx) :
    0 ≤ (v - mn) / (mx - mn) * 100 ∧ (v - mn) / (mx - mn) * 100 ≤ 100 := by
  have hd : 0 < mx - mn := sub_pos.mpr h
  refine ⟨mul_nonneg (div_nonneg (sub_nonneg.mpr h1) hd.le) (by norm_num), ?_⟩
  have hle : (v - mn) / (mx - mn) ≤ 1 :=
    (div_le_one hd).mpr (sub_le_sub_right h2 mn)
  calc (v - mn) / (mx - mn) * 100 ≤ 1 * 100 :=
        mul_le_mul_of_nonneg_right hle (by norm_num)
    _ = 100 := one_mul 100

theorem normalize_of_max_eq_min {xs : List ℚ} (h : listMax xs = listMin xs) :
    normalize xs = xs.map (fun _ => 50) := by
  simp only [normalize, if_pos h, mul_zero, zero_add]

theorem normalize_of_min_lt_max {xs : List ℚ} (h : listMin xs < listMax xs) :
    normalize xs
      = xs.map (fun v => (v - listMin xs) / (listMax xs - listMin xs) * 100) := by
  simp only [normalize, if_neg (ne_of_gt h)]

theorem normalize_length (xs : List ℚ) : (normalize xs).length = xs.length := by
  unfold normalize
  split <;> simp

theorem normalize_min_max {xs : List ℚ} (h : listMin xs < listMax xs) :
    listMin (normalize xs) = 0 ∧ listMax (normalize xs) = 100 := by
  obtain ⟨x, xs2, rfl⟩ : ∃ y ys, xs = y :: ys := by
    cases xs with
    | nil => simp [listMin, listMax] at h
    | cons y ys => exact ⟨y, ys, rfl⟩
  have hd : 0 < listMax (x :: xs2) - listMin (x :: xs2) := sub_pos.mpr h
  have hmono : ∀ a b : ℚ, a ≤ b →
      (a - listMin (x :: xs2)) / (listMax (x :: xs2) - listMin (x :: xs2)) * 100
        ≤ (b - listMin (x :: xs2)) / (listMax (x :: xs2) - listMin (x :: xs2)) * 100 :=
    fun _ _ hab => affine_mono hd hab
  rw [normalize_of_min_lt_max h]
  constructor
  · rw [listMin_map _ (map_min_of_monotone hmono) x xs2, sub_self, zero_div, zero_mul]
  · rw [listMax_map _ (map_max_of_monotone hmono) x xs2, div_self (ne_of_gt hd), one_mul]

theorem normalize_mem_range {xs : List ℚ} (h : listMin xs < listMax xs) :
    ∀ v ∈ normalize xs, 0 ≤ v ∧ v ≤ 100 := by
  rw [normalize_of_min_lt_max h]
  intro v hv
  obtain ⟨w, hw, rfl⟩ := List.mem_map.mp hv
  exact affine_bounds h (listMin_le_of_mem hw) (le_listMax_of_mem hw)

/-! ## Helper lemmas on the peak scan -/

theorem getD_of_lt (xs : List ℚ) {k : ℕ} (hk : k < xs.length) :
    xs.getD k 0 = xs.get ⟨k, hk⟩ := by
  rw [List.getD_eq_getElem?_getD, List.getElem?_eq_getElem hk]
  rfl

theorem getD_mem_of_lt (xs : List ℚ) {k : ℕ} (hk : k < xs.length) :
    xs.getD k 0 ∈ xs := by
  rw [getD_of_lt xs hk]
  exact xs.get_mem k hk

theorem getD_map_of_lt (f : ℚ → ℚ) (xs : List ℚ) {k : ℕ} (hk : k < xs.length) :
    (xs.map f).getD k 0 = f (xs.getD k 0) := by
  rw [getD_of_lt xs hk, getD_of_lt (xs.map f) (by simpa using hk)]
  simp

theorem mem_findPeaks_iff {xs : List ℚ} {i : ℕ} :
    i ∈ findPeaks xs ↔
      1 ≤ i ∧ i + 1 < xs.length ∧
        xs.getD (i - 1) 0 < xs.getD i 0 ∧ xs.getD (i + 1) 0 < xs.getD i 0 := by
  simp only [findPeaks, isInteriorPeak, List.mem_filter, List.mem_range,
    decide_eq_true_eq]
  constructor
  · rintro ⟨-, h⟩
    exact h
  · rintro ⟨h1, h2, h3, h4⟩
    exact ⟨by omega, h1, h2, h3, h4⟩

theorem findPeaks_eq_of_pointwise {xs ys : List ℚ} (hlen : ys.length = xs.length)
    (h : ∀ i, 1 ≤ i → i + 1 < xs.length →
      ((ys.getD (i - 1) 0 < ys.getD i 0 ∧ ys.getD (i + 1) 0 < ys.getD i 0) ↔
        (xs.getD (i - 1) 0 < xs.getD i 0 ∧ xs.getD (i + 1) 0 < xs.getD i 0))) :
    findPeaks ys = findPeaks xs := by
  unfold findPeaks
  rw [hlen]
  refine List.filter_congr ?_
  intro i _
  unfold isInteriorPeak
  rw [hlen]
  refine decide_eq_decide.mpr ?_
  constructor
  · rintro ⟨h1, h2, h3, h4⟩
    exact ⟨h1, h2, ((h i h1 h2).mp ⟨h3, h4⟩).1, ((h i h1 h2).mp ⟨h3, h4⟩).2⟩
  · rintro ⟨h1, h2, h3, h4⟩
    exact ⟨h1, h2, ((h i h1 h2).mpr ⟨h3, h4⟩).1, ((h i h1 h2).mpr ⟨h3, h4⟩).2⟩

/-! ## Helper lemmas on `get_monthly_averages` -/

theorem get_monthly_averages_dates (samples : List Sample) :
    (get_monthly_averages samples).map Bucket.normalized_date
      = List.insertionSort (· ≤ ·) (samples.map Sample.normalized_date).dedup := by
  unfold get_monthly_averages
  simp only [List.map_map]
  exact List.map_id' _

theorem get_monthly_averages_length (samples : List Sample) :
    (get_monthly_averages samples).length
      = (samples.map Sample.normalized_date).dedup.length := by
  unfold get_monthly_averages
  rw [List.length_map]
  exact (List.perm_insertionSort _ _).length_eq

theorem ratio_of_means (samples : List Sample) :
    ∀ b ∈ get_monthly_averages samples, ∀ n st : ℚ,
      b.n_value = some n → b.st_value = some st → st ≠ 0 →
        b.n_st_ratio = some (n / st) := by
  intro b hb n st hn hst hst0
  unfold get_monthly_averages at hb
  simp only [List.mem_map] at hb
  obtain ⟨k, hk, rfl⟩ := hb
  simp only at hn hst ⊢
  rw [hn, hst] at *
  simp [ratioDiv, hst0]

theorem ratioExample_eval :
    get_monthly_averages ratioExampleSamples
      = [{ normalized_date := 1, n_value := some 2, st_value := some 0,
            n_st_ratio := none },
         { normalized_date := 2, n_value := some 2, st_value := some 50,
            n_st_ratio := some 0.04 }] := by
  simp only [get_monthly_averages, ratioExampleSamples]
  norm_num [List.dedup, List.insertionSort, List.orderedInsert, List.filter,
    List.filterMap]
  norm_num [meanOpt, ratioDiv]

/-! ## Claim theorems -/

/-- C2 (counterexample): the claim's December case fails.  The December
thresholds are exactly [2.97, 3.24, 3.645, 3.915], and under the left-closed
band rule the value 3.5 lies in [3.24, 3.645) = [b2, b3), which is the
Optimum band — not High as the claim (and the spec's end-to-end scenario)
asserts.  (Compare August, where the spec itself labels the [b2, b3) band
Optimum.) -/
theorem december_value_not_high :
    get_monthly_thresholds 12 = ⟨2.97, 3.24, 3.645, 3.915⟩
    ∧ classify 3.5 (get_monthly_thresholds 12) = StatusLabel.Optimum
    ∧ ((classify 3.5 (get_monthly_thresholds 12) = StatusLabel.High) ↔ False) := by
  refine ⟨?_, ?_, ?_⟩
  · norm_num [get_monthly_thresholds, LNC_OCT_THRESHOLDS, LNC_MONTHLY_FACTORS]
  · norm_num [classify, get_monthly_thresholds, LNC_OCT_THRESHOLDS, LNC_MONTHLY_FACTORS]
  · norm_num [classify, get_monthly_thresholds, LNC_OCT_THRESHOLDS, LNC_MONTHLY_FACTORS]
    decide

/-- C2 (amended): with anchor thresholds [2.64, 2.88, 3.24, 3.48] and factors
{12: 1.125, 4: 0.993, 8: 1.024}, the seasonally scaled boundary sets are
December [2.97, 3.24, 3.645, 3.915], April [2.62152, 2.85984, 3.21732,
3.45564] (displayed rounded as [2.62, 2.86, 3.218, 3.455] in the claim) and
August [2.70336, 2.94912, 3.31776, 3.56352] (displayed [2.70, 2.95, 3.318,
3.564]); under the left-closed band rule the December sample 3.5 falls in
[3.24, 3.645) = [b2, b3) and is classified Optimum (not High), the April
sample 2.7 falls in [b1, b2) and is classified Low, and the August sample
3.0 falls in [b2, b3) and is classified Optimum.  The per-key boundaries
agree with `get_threshold_for_date`. -/
theorem seasonal_classification_scenario :
    (∀ m k, (get_monthly_thresholds m).get k = get_threshold_for_date m k)
    ∧ get_monthly_thresholds 12 = ⟨2.97, 3.24, 3.645, 3.915⟩
    ∧ ((get_monthly_thresholds 12).low_optimum ≤ 3.5
        ∧ (3.5 : ℚ) < (get_monthly_thresholds 12).optimum_high)
    ∧ classify 3.5 (get_monthly_thresholds 12) = StatusLabel.Optimum
    ∧ get_monthly_thresholds 4 = ⟨2.62152, 2.85984, 3.21732, 3.45564⟩
    ∧ ((get_monthly_thresholds 4).deficient_low ≤ 2.7
        ∧ (2.7 : ℚ) < (get_monthly_thresholds 4).low_optimum)
    ∧ classify 2.7 (get_monthly_thresholds 4) = StatusLabel.Low
    ∧ get_monthly_thresholds 8 = ⟨2.70336, 2.94912, 3.31776, 3.56352⟩
    ∧ ((get_monthly_thresholds 8).low_optimum ≤ 3.0
        ∧ (3.0 : ℚ) < (get_monthly_thresholds 8).optimum_high)
    ∧ classify 3.0 (get_monthly_thresholds 8) = StatusLabel.Optimum := by
  refine ⟨fun m k => by cases k <;> rfl, ?_, ?_, ?_, ?_, ?_, ?_, ?_, ?_, ?_⟩ <;>
    norm_num [classify, get_monthly_thresholds, LNC_OCT_THRESHOLDS,
      LNC_MONTHLY_FACTORS]

/-- C3: for every month m in 1..12, the four seasonally adjusted boundaries
`get_monthly_thresholds m` (each anchor threshold times the month's positive
factor) are strictly increasing: b1 < b2 < b3 < b4. -/
theorem monthly_thresholds_strictMono (m : ℕ) (h1 : 1 ≤ m) (h2 : m ≤ 12) :
    (get_monthly_thresholds m).deficient_low < (get_monthly_thresholds m).low_optimum
    ∧ (get_monthly_thresholds m).low_optimum < (get_monthly_thresholds m).optimum_high
    ∧ (get_monthly_thresholds m).optimum_high < (get_monthly_thresholds m).high_excess := by
  interval_cases m <;>
    norm_num [get_monthly_thresholds, LNC_OCT_THRESHOLDS, LNC_MONTHLY_FACTORS]

/-- C3 witness: the strict ordering at the concrete month 12. -/
theorem monthly_thresholds_strictMono_witness :
    (1 ≤ 12 ∧ 12 ≤ 12)
    ∧ (get_monthly_thresholds 12).deficient_low < (get_monthly_thresholds 12).low_optimum
    ∧ (get_monthly_thresholds 12).low_optimum < (get_monthly_thresholds 12).optimum_high
    ∧ (get_monthly_thresholds 12).optimum_high < (get_monthly_thresholds 12).high_excess :=
  ⟨⟨by norm_num, by norm_num⟩, monthly_thresholds_strictMono 12 (by norm_num) (by norm_num)⟩

/-- C4: the peak scan reports index i iff 1 ≤ i ≤ n-2 and the value at i is
strictly above both neighbors; endpoints (i = 0 or i = n-1) and plateau
points of equal adjacent values are never reported; fewer than 3 points
yield an empty result; and on [1, 3, 5, 7, 4, 2] the only peak is index 3
(value 7). -/
theorem peak_scan_spec (xs : List ℚ) (i : ℕ) :
    (i ∈ findPeaks xs ↔
      1 ≤ i ∧ i ≤ xs.length - 2
        ∧ xs.getD (i - 1) 0 < xs.getD i 0 ∧ xs.getD (i + 1) 0 < xs.getD i 0)
    ∧ (i = 0 → i ∉ findPeaks xs)
    ∧ (i + 1 = xs.length → i ∉ findPeaks xs)
    ∧ (xs.getD (i + 1) 0 = xs.getD i 0 → i ∉ findPeaks xs)
    ∧ (xs.length < 3 → findPeaks xs = [])
    ∧ findPeaks peakExampleSeries = [3] := by
  have hbound : ∀ j : ℕ, (1 ≤ j ∧ j + 1 < xs.length) ↔ (1 ≤ j ∧ j ≤ xs.length - 2) := by
    intro j
    omega
  refine ⟨?_, ?_, ?_, ?_, ?_, by decide⟩
  · rw [mem_findPeaks_iff]
    constructor
    · rintro ⟨h1, h2, h3, h4⟩
      exact ⟨h1, ((hbound i).mp ⟨h1, h2⟩).2, h3, h4⟩
    · rintro ⟨h1, h2, h3, h4⟩
      exact ⟨h1, ((hbound i).mpr ⟨h1, h2⟩).2, h3, h4⟩
  · rintro rfl hmem
    exact absurd (mem_findPeaks_iff.mp hmem).1 (by norm_num)
  · intro hend hmem
    exact absurd (mem_findPeaks_iff.mp hmem).2.1 (by omega)
  · intro heq hmem
    exact absurd (mem_findPeaks_iff.mp hmem).2.2.2 (heq ▸ lt_irrefl _)
  · intro hshort
    refine List.eq_nil_iff_forall_not_mem.mpr fun j hj => ?_
    have h := mem_findPeaks_iff.mp hj
    omega

/-- C4 witness: the series [5, 9] (length 2) has no peaks; on the example
series [1, 3, 5, 7, 4, 2] the scan reports exactly index 3, and index 5
(the last position) is never reported. -/
theorem peak_scan_spec_witness :
    findPeaks [(5 : ℚ), 9] = []
    ∧ findPeaks peakExampleSeries = [3]
    ∧ 5 ∉ findPeaks peakExampleSeries :=
  ⟨(peak_scan_spec [(5 : ℚ), 9] 0).2.2.2.2.1 (by norm_num),
    (peak_scan_spec peakExampleSeries 0).2.2.2.2.2,
    (peak_scan_spec peakExampleSeries 5).2.2.1 (by norm_num [peakExampleSeries])⟩

/-- C10: the peak scan never reports two consecutive indices: if i is
reported then value[i+1] < value[i], contradicting the value[i] < value[i+1]
required for i+1 to be reported. -/
theorem findPeaks_no_adjacent (xs : List ℚ) (i : ℕ) (h : i ∈ findPeaks xs) :
    i + 1 ∉ findPeaks xs := by
  intro h2
  have hi := mem_findPeaks_iff.mp h
  have hi1 := mem_findPeaks_iff.mp h2
  have hlt : xs.getD i 0 < xs.getD (i + 1) 0 := by
    have := hi1.2.2.1
    simpa using this
  exact absurd hi.2.2.2 (not_lt.mpr hlt.le)

/-- C10 witness: on [1, 3, 5, 7, 4, 2], index 3 is reported, hence index 4
is not. -/
theorem findPeaks_no_adjacent_witness :
    3 ∈ findPeaks peakExampleSeries ∧ 4 ∉ findPeaks peakExampleSeries :=
  ⟨by decide, findPeaks_no_adjacent peakExampleSeries 3 (by decide)⟩

/-- C5: for a series whose maximum is strictly greater than its minimum,
`normalize` maps each element v to (v - min)/(max - min) × 100 elementwise
(min/max over the whole sequence), every output element lies in [0, 100],
the minimum of the output is 0 and the maximum is 100. -/
theorem normalize_nondegenerate_spec (xs : List ℚ) (h : listMin xs < listMax xs) :
    normalize xs
        = xs.map (fun v => (v - listMin xs) / (listMax xs - listMin xs) * 100)
    ∧ (∀ v ∈ normalize xs, 0 ≤ v ∧ v ≤ 100)
    ∧ listMin (normalize xs) = 0
    ∧ listMax (normalize xs) = 100 :=
  ⟨normalize_of_min_lt_max h, normalize_mem_range h,
    (normalize_min_max h).1, (normalize_min_max h).2⟩

/-- C5 witness: the series [0, 2] is non-degenerate and normalizes to
[0, 100]. -/
theorem normalize_nondegenerate_spec_witness :
    listMin [(0 : ℚ), 2] < listMax [(0 : ℚ), 2]
    ∧ normalize [(0 : ℚ), 2] = [0, 100] := by
  have h : listMin [(0 : ℚ), 2] < listMax [(0 : ℚ), 2] := by
    norm_num [listMin, listMax]
  refine ⟨h, ?_⟩
  rw [(normalize_nondegenerate_spec [(0 : ℚ), 2] h).1]
  norm_num [listMin, listMax]

/-- C6: a constant series (all elements equal, any length, including a
single element) makes max = min; in that degenerate branch every output of
`normalize` is 50; and whenever the dividing branch is taken (max ≠ min)
the denominator max - min is nonzero, so the divide-by-zero case is
unreachable. -/
theorem normalize_degenerate_spec (xs : List ℚ) (c : ℚ) :
    ((∀ v ∈ xs, v = c) → listMax xs = listMin xs)
    ∧ (listMax xs = listMin xs → ∀ v ∈ normalize xs, v = 50)
    ∧ (listMax xs ≠ listMin xs → listMax xs - listMin xs ≠ 0) := by
  refine ⟨listMax_eq_listMin_of_const, fun h v hv => ?_, sub_ne_zero_of_ne⟩
  rw [normalize_of_max_eq_min h] at hv
  obtain ⟨w, -, rfl⟩ := List.mem_map.mp hv
  rfl

/-- C6 witness: the constant series [7, 7] is degenerate and every output of
`normalize` on it is 50. -/
theorem normalize_degenerate_spec_witness :
    listMax [(7 : ℚ), 7] = listMin [(7 : ℚ), 7]
    ∧ ∀ v ∈ normalize [(7 : ℚ), 7], v = 50 := by
  have h : listMax [(7 : ℚ), 7] = listMin [(7 : ℚ), 7] :=
    (normalize_degenerate_spec [(7 : ℚ), 7] 7).1 (by norm_num)
  exact ⟨h, (normalize_degenerate_spec [(7 : ℚ), 7] 7).2.1 h⟩

/-- C9: `normalize` is idempotent — a non-degenerate output has minimum 0
and maximum 100, so renormalizing it is the identity; a degenerate input
maps to the constant-50 series, which renormalizes to itself. -/
theorem normalize_idempotent (xs : List ℚ) :
    normalize (normalize xs) = normalize xs := by
  rcases eq_or_lt_of_le (listMin_le_listMax xs) with heq | hlt
  · have h : listMax xs = listMin xs := heq.symm
    rw [normalize_of_max_eq_min h]
    cases xs with
    | nil => rfl
    | cons x xs2 =>
      have h2 : listMax ((x :: xs2).map fun _ => (50 : ℚ))
          = listMin ((x :: xs2).map fun _ => (50 : ℚ)) :=
        listMax_eq_listMin_of_const (c := 50) (by simp)
      rw [normalize_of_max_eq_min h2, List.map_map]
      rfl
  · have hmm := normalize_min_max hlt
    have hlt2 : listMin (normalize xs) < listMax (normalize xs) := by
      rw [hmm.1, hmm.2]
      norm_num
    rw [normalize_of_min_lt_max hlt2, hmm.1, hmm.2]
    have hid : ∀ v ∈ normalize xs, (v - 0) / (100 - 0) * 100 = v := by
      intro v _
      norm_num
    rw [List.map_congr_left hid, List.map_id']

/-- C8: the strict-neighbor peak scan reports exactly the same indices on
`normalize xs` as on the raw series xs: in the non-degenerate case
normalization is a strictly increasing affine map preserving every strict
neighbor comparison, and in the degenerate case both series are constant and
have no peaks; so scanning the raw ratio column and scanning its normalized
copy are equivalent. -/
theorem findPeaks_normalize_eq (xs : List ℚ) :
    findPeaks (normalize xs) = findPeaks xs := by
  rcases eq_or_lt_of_le (listMin_le_listMax xs) with heq | hlt
  · have h : listMax xs = listMin xs := heq.symm
    rw [normalize_of_max_eq_min h]
    refine findPeaks_eq_of_pointwise (by simp) ?_
    intro i h1 h2
    have hconst := eq_listMin_of_max_eq_min h
    have e1 : xs.getD (i - 1) 0 = listMin xs :=
      hconst _ (getD_mem_of_lt xs (by omega))
    have e2 : xs.getD i 0 = listMin xs :=
      hconst _ (getD_mem_of_lt xs (by omega))
    have e3 : xs.getD (i + 1) 0 = listMin xs :=
      hconst _ (getD_mem_of_lt xs (by omega))
    rw [getD_map_of_lt _ xs (show i - 1 < xs.length by omega),
      getD_map_of_lt _ xs (show i < xs.length by omega),
      getD_map_of_lt _ xs (show i + 1 < xs.length by omega), e1, e2, e3]
    simp
  · have hd : 0 < listMax xs - listMin xs := sub_pos.mpr hlt
    rw [normalize_of_min_lt_max hlt]
    refine findPeaks_eq_of_pointwise (by simp) ?_
    intro i h1 h2
    rw [getD_map_of_lt _ xs (show i - 1 < xs.length by omega),
      getD_map_of_lt _ xs (show i < xs.length by omega),
      getD_map_of_lt _ xs (show i + 1 < xs.length by omega)]
    simp only [affine_lt_iff hd]

/-- C7: for every input sample list, the monthly aggregation produces one
bucket per distinct normalized month timestamp and the bucket list is sorted
strictly ascending by that timestamp. -/
theorem monthly_buckets_sorted (samples : List Sample) :
    List.Sorted (· < ·) ((get_monthly_averages samples).map Bucket.normalized_date) := by
  rw [get_monthly_averages_dates]
  exact List.Sorted.lt_of_le (List.sorted_insertionSort _ _)
    (((List.perm_insertionSort _ _).nodup_iff).mpr (List.nodup_dedup _))

/-- C1 (counterexample): on the claim's own example input — one January
sample (N = 2.0, ST = 0) and one February sample (N = 2.0, ST = 50.0) — the
code's output has TWO entries, not one: the January bucket is kept with a
non-finite ratio (float division of 2.0 by the zero starch mean), not
omitted; February carries ratio 0.04. -/
theorem zero_starch_bucket_kept :
    get_monthly_averages ratioExampleSamples
      = [{ normalized_date := 1, n_value := some 2, st_value := some 0,
            n_st_ratio := none },
         { normalized_date := 2, n_value := some 2, st_value := some 50,
            n_st_ratio := some 0.04 }]
    ∧ (get_monthly_averages ratioExampleSamples).length = 2 := by
  refine ⟨ratioExample_eval, ?_⟩
  rw [ratioExample_eval]
  rfl

/-- C1 (amended): `get_monthly_averages` produces one output row per
distinct normalized month and computes the ratio column for every row, with
no filtering: a bucket whose starch mean is 0 or missing is kept in the
output with a non-finite ratio value rather than omitted.  For every kept
bucket whose two means are present and whose starch mean is nonzero, the
ratio is the finite value mean_nitrogen / mean_starch (0.04 for the
February example bucket). -/
theorem ratio_series_keeps_all_buckets (samples : List Sample) :
    (get_monthly_averages samples).length
        = (samples.map Sample.normalized_date).dedup.length
    ∧ ∀ b ∈ get_monthly_averages samples, ∀ n st : ℚ,
        b.n_value = some n → b.st_value = some st → st ≠ 0 →
          b.n_st_ratio = some (n / st) :=
  ⟨get_monthly_averages_length samples, ratio_of_means samples⟩

/-- C1 (amended) witness: on the example input both buckets are kept
(length 2) and the February bucket's ratio is 2/50 = 0.04. -/
theorem ratio_series_keeps_all_buckets_witness :
    (get_monthly_averages ratioExampleSamples).length
        = (ratioExampleSamples.map Sample.normalized_date).dedup.length
    ∧ ({ normalized_date := 2, n_value := some 2, st_value := some 50,
          n_st_ratio := some 0.04 } : Bucket).n_st_ratio = some ((2 : ℚ) / 50) := by
  refine ⟨(ratio_series_keeps_all_buckets ratioExampleSamples).1, ?_⟩
  refine (ratio_series_keeps_all_buckets ratioExampleSamples).2
    { normalized_date := 2, n_value := some 2, st_value := some 50,
      n_st_ratio := some 0.04 } ?_ 2 50 rfl rfl (by norm_num)
  rw [ratioExample_eval]
  simp

end CropAnalysis
